import Mathlib

/-!
Verification development for the receipt-recorder web application.

The TypeScript sources are shallowly embedded: JavaScript strings are
modelled through their character lists (`List Char`, wrapped in Lean
`String`s built from explicit `data`), JavaScript numbers appearing as
receipt totals and item prices are modelled by `Nat` (the program treats
them as plain nonnegative decimal amounts), and the browser/SaaS
environment (analysis results, user confirmation, network responses,
the hosted database) is supplied through explicit oracle parameters.

Each definition mirrors one function of the sources:
  - `createReceiptHash`, `saveReceipt`   from services/receiptService.ts
  - `sortedAndFilteredReceipts` etc.     from components/ReceiptsViewer.tsx
  - `checkAuthorization`, `appView`      from contexts/AuthContext.tsx and App
  - `ensureSpreadsheet`, `resetSpreadsheet`, `ensureFolder`
                                         from the Google Sheets/Drive services
  - `processQueue` / `runScanner`        from the App processing pipeline
  - `handleImageSelect`                  from the App file intake
-/

namespace ReceiptRecorder

/-! ### JavaScript string primitives

JS `String.prototype.trim`, `toLowerCase`, `includes`, `substring`, the
default `Array.prototype.sort` string comparison, and number-to-string
conversion, modelled on character lists. -/

/-- The whitespace characters removed by JS `trim` (ASCII whitespace plus
NBSP, BOM and the Unicode line/paragraph separators). -/
def jsWhitespace (c : Char) : Bool :=
  c.toNat == 32 || c.toNat == 9 || c.toNat == 10 || c.toNat == 11 ||
  c.toNat == 12 || c.toNat == 13 || c.toNat == 160 || c.toNat == 65279 ||
  c.toNat == 8232 || c.toNat == 8233

/-- `trim` on a character list: drop whitespace from both ends. -/
def trimChars (l : List Char) : List Char :=
  ((l.dropWhile jsWhitespace).reverse.dropWhile jsWhitespace).reverse

/-- JS `s.trim()`. -/
def jsTrim (s : String) : String := ⟨trimChars s.data⟩

/-- JS `s.toLowerCase()`, characterwise (faithful on the ASCII range the
application handles). -/
def jsToLower (s : String) : String := ⟨s.data.map Char.toLower⟩

/-- Does `hay` start with `needle`? (helper for `jsIncludes`). -/
def startsWithChars : List Char → List Char → Bool
  | _, [] => true
  | [], _ :: _ => false
  | h :: hs, n :: ns => h == n && startsWithChars hs ns

/-- Does `hay` contain `needle` as a contiguous run? (helper for `jsIncludes`). -/
def containsChars : List Char → List Char → Bool
  | [], needle => needle.isEmpty
  | h :: hs, needle => startsWithChars (h :: hs) needle || containsChars hs needle

/-- JS `s.includes(sub)`. -/
def jsIncludes (s sub : String) : Bool := containsChars s.data sub.data

/-- UTF-16 code-unit comparison of two strings, as used by JS `<`/`>` on
strings and by the default `Array.prototype.sort` comparator. -/
def lexCmp : List Char → List Char → Ordering
  | [], [] => .eq
  | [], _ :: _ => .lt
  | _ :: _, [] => .gt
  | a :: as, b :: bs =>
    if a.toNat < b.toNat then .lt
    else if b.toNat < a.toNat then .gt
    else lexCmp as bs

/-- Boolean "less or equal" on strings derived from `lexCmp`. -/
def strLeB (s t : String) : Bool :=
  match lexCmp s.data t.data with
  | .gt => false
  | _ => true

/-- The order relation JS default `sort` arranges strings by. -/
def strRel (s t : String) : Prop := strLeB s t = true

instance : DecidableRel strRel := fun s t => by
  unfold strRel; infer_instance

/-- Decimal digit character for a value below ten. -/
def digit48 (d : Nat) : Char := Char.ofNat (48 + d)

/-- Decimal digits of `n`, most significant first; `fuel` bounds the
recursion and any `fuel > n` computes the exact JS decimal rendering. -/
def natChars : Nat → Nat → List Char
  | 0, _ => []
  | fuel + 1, n =>
    if n < 10 then [digit48 n]
    else natChars fuel (n / 10) ++ [digit48 (n % 10)]

/-- JS number-to-string conversion for the nonnegative integers the
application stores (`` `${n}` `` in a template literal). -/
def natToString (n : Nat) : String := ⟨natChars (n + 1) n⟩

/-! ### Receipt data model (types.ts) -/

/-- One line item of a receipt (`ReceiptItem` in types.ts). -/
structure ReceiptItem where
  name : String
  price : Nat
deriving DecidableEq

/-- A receipt record (`ReceiptData` in types.ts); JS numbers are modelled
by `Nat`. -/
structure ReceiptData where
  merchantName : String
  date : String
  total : Nat
  items : List ReceiptItem
  notes : Option String := none
  imageUrl : Option String := none
  driveFileId : Option String := none
deriving DecidableEq

/-! ### Duplicate-detection hash (services/receiptService.ts) -/

/-- The string contributed by one item:
`` `${i.name?.trim() || ''}${i.price || 0}` ``. -/
def itemEntry (i : ReceiptItem) : String :=
  jsTrim i.name ++ natToString i.price

/-- JS `array.sort()` on strings: stable sort under the default
code-unit comparator. -/
def sortStrings (l : List String) : List String :=
  l.insertionSort strRel

/-- JS `array.join('')`. -/
def joinAll (l : List String) : String := l.foldl (· ++ ·) ""

/-- The item component of the hash:
`data.items.map(...).sort().join('')`. -/
def itemsString (d : ReceiptData) : String :=
  joinAll (sortStrings (d.items.map itemEntry))

/-- `createReceiptHash` from receiptService.ts: the normalized core
string used as the uniqueness key (`merchant|date|total|items`). -/
def createReceiptHash (d : ReceiptData) : String :=
  jsTrim d.merchantName ++ "|" ++ jsTrim d.date ++ "|" ++
  natToString d.total ++ "|" ++ itemsString d

/-! ### Properties of the string comparison -/

theorem char_toNat_inj {a b : Char} (h : a.toNat = b.toNat) : a = b := by
  apply Char.ext
  unfold Char.toNat at h
  exact UInt32.toNat.inj h

theorem lexCmp_swap (a : List Char) : ∀ b, lexCmp b a = (lexCmp a b).swap := by
  induction a with
  | nil => intro b; cases b <;> rfl
  | cons x xs ih =>
    intro b
    cases b with
    | nil => rfl
    | cons y ys =>
      by_cases h1 : x.toNat < y.toNat
      · have h2 : ¬ y.toNat < x.toNat := by omega
        simp [lexCmp, h1, h2, Ordering.swap]
      · by_cases h2 : y.toNat < x.toNat
        · simp [lexCmp, h1, h2, Ordering.swap]
        · simp [lexCmp, h1, h2, ih ys]

theorem lexCmp_eq_iff : ∀ a b : List Char, lexCmp a b = .eq ↔ a = b := by
  intro a
  induction a with
  | nil => intro b; cases b <;> simp [lexCmp]
  | cons x xs ih =>
    intro b
    cases b with
    | nil => simp [lexCmp]
    | cons y ys =>
      by_cases h1 : x.toNat < y.toNat
      · have hxy : x ≠ y := by rintro rfl; omega
        simp [lexCmp, h1, hxy]
      · by_cases h2 : y.toNat < x.toNat
        · have hxy : x ≠ y := by rintro rfl; omega
          simp [lexCmp, h1, h2, hxy]
        · have hxy : x = y := char_toNat_inj (by omega)
          simp [lexCmp, h1, h2, hxy, ih ys]

theorem lexCmp_le_trans :
    ∀ a b c : List Char, lexCmp a b ≠ .gt → lexCmp b c ≠ .gt → lexCmp a c ≠ .gt := by
  intro a
  induction a with
  | nil =>
    intro b c _ _
    cases c <;> simp [lexCmp]
  | cons x xs ih =>
    intro b c hab hbc
    cases b with
    | nil => simp [lexCmp] at hab
    | cons y ys =>
      cases c with
      | nil => simp [lexCmp] at hbc
      | cons z zs =>
        by_cases hxy1 : x.toNat < y.toNat <;> by_cases hyz1 : y.toNat < z.toNat
        · have h1 : x.toNat < z.toNat := by omega
          have h2 : ¬ z.toNat < x.toNat := by omega
          simp [lexCmp, h1, h2]
        · by_cases hyz2 : z.toNat < y.toNat
          · simp [lexCmp, hyz1, hyz2] at hbc
          · have h1 : x.toNat < z.toNat := by omega
            simp [lexCmp, h1]
        · by_cases hxy2 : y.toNat < x.toNat
          · simp [lexCmp, hxy1, hxy2] at hab
          · have h1 : x.toNat < z.toNat := by omega
            have h2 : ¬ z.toNat < x.toNat := by omega
            simp [lexCmp, h1, h2]
        · by_cases hxy2 : y.toNat < x.toNat
          · simp [lexCmp, hxy1, hxy2] at hab
          · by_cases hyz2 : z.toNat < y.toNat
            · simp [lexCmp, hyz1, hyz2] at hbc
            · have h1 : ¬ x.toNat < z.toNat := by omega
              have h2 : ¬ z.toNat < x.toNat := by omega
              simp [lexCmp, hxy1, hxy2] at hab
              simp [lexCmp, hyz1, hyz2] at hbc
              simp [lexCmp, h1, h2]
              exact ih ys zs hab hbc

theorem strLeB_iff_ne_gt (s t : String) : strLeB s t = true ↔ lexCmp s.data t.data ≠ .gt := by
  unfold strLeB
  rcases h : lexCmp s.data t.data <;> simp [h]

instance : IsTotal String strRel := by
  constructor
  intro a b
  unfold strRel
  rw [strLeB_iff_ne_gt, strLeB_iff_ne_gt, lexCmp_swap a.data b.data]
  rcases lexCmp a.data b.data <;> simp [Ordering.swap]

instance : IsTrans String strRel := by
  constructor
  intro a b c hab hbc
  unfold strRel at *
  rw [strLeB_iff_ne_gt] at *
  exact lexCmp_le_trans _ _ _ hab hbc

instance : IsAntisymm String strRel := by
  constructor
  intro a b hab hba
  unfold strRel at *
  rw [strLeB_iff_ne_gt] at hab hba
  rw [lexCmp_swap] at hba
  apply String.ext
  rw [← lexCmp_eq_iff]
  rcases h : lexCmp a.data b.data <;> simp [h, Ordering.swap] at hab hba ⊢

/-- JS default `sort` computes the same list on any two permutations of
the same input: the output is the unique `strRel`-sorted arrangement. -/
theorem sortStrings_congr_perm {l l' : List String} (h : l.Perm l') :
    sortStrings l = sortStrings l' := by
  have hs1 : List.Sorted strRel (sortStrings l) := List.sorted_insertionSort strRel l
  have hs2 : List.Sorted strRel (sortStrings l') := List.sorted_insertionSort strRel l'
  have hp : (sortStrings l).Perm (sortStrings l') :=
    (List.perm_insertionSort strRel l).trans (h.trans (List.perm_insertionSort strRel l').symm)
  exact List.eq_of_perm_of_sorted hp hs1 hs2

/-! ### The decimal rendering of a total is injective -/

theorem digit48_inj : ∀ a, a < 10 → ∀ b, b < 10 → digit48 a = digit48 b → a = b := by decide

theorem natChars_ne_nil (fuel n : Nat) (h : 0 < fuel) : natChars fuel n ≠ [] := by
  cases fuel with
  | zero => omega
  | succ f =>
    unfold natChars
    by_cases h10 : n < 10 <;> simp [h10]

theorem natChars_inj :
    ∀ f1 a f2 b, a < f1 → b < f2 → natChars f1 a = natChars f2 b → a = b := by
  intro f1
  induction f1 with
  | zero => intro a f2 b ha; omega
  | succ f ih =>
    intro a f2 b ha hb h
    cases f2 with
    | zero => omega
    | succ f2 =>
      by_cases ha10 : a < 10 <;> by_cases hb10 : b < 10
      · simp [natChars, ha10, hb10] at h
        exact digit48_inj a ha10 b hb10 h
      · exfalso
        simp [natChars, ha10, hb10] at h
        have := congrArg List.length h
        simp at this
        have hne := natChars_ne_nil f2 (b / 10) (by omega)
        cases hc : natChars f2 (b / 10) with
        | nil => exact hne hc
        | cons u us => rw [hc] at this; simp at this
      · exfalso
        simp [natChars, ha10, hb10] at h
        have := congrArg List.length h
        simp at this
        have hne := natChars_ne_nil f (a / 10) (by omega)
        cases hc : natChars f (a / 10) with
        | nil => exact hne hc
        | cons u us => rw [hc] at this; simp at this
      · simp [natChars, ha10, hb10] at h
        rw [← List.concat_eq_append, ← List.concat_eq_append, List.concat_inj] at h
        have hmod : a % 10 = b % 10 :=
          digit48_inj _ (Nat.mod_lt a (by omega)) _ (Nat.mod_lt b (by omega)) h.2
        have hdiva : a / 10 < f := by
          have := Nat.div_lt_self (by omega : 0 < a) (by omega : 1 < 10)
          omega
        have hdivb : b / 10 < f2 := by
          have := Nat.div_lt_self (by omega : 0 < b) (by omega : 1 < 10)
          omega
        have hdiv : a / 10 = b / 10 := ih (a / 10) f2 (b / 10) hdiva hdivb h.1
        omega

theorem natToString_inj {a b : Nat} (h : natToString a = natToString b) : a = b := by
  have hd : natChars (a + 1) a = natChars (b + 1) b := congrArg String.data h
  exact natChars_inj (a + 1) a (b + 1) b (by omega) (by omega) hd

/-! ### Trimming ignores leading/trailing whitespace padding -/

theorem dropWhile_ws_append {p l : List Char}
    (hp : ∀ c ∈ p, jsWhitespace c = true) :
    (p ++ l).dropWhile jsWhitespace = l.dropWhile jsWhitespace := by
  induction p with
  | nil => rfl
  | cons x xs ih =>
    have hx : jsWhitespace x = true := hp x (List.mem_cons_self x xs)
    have hxs : ∀ c ∈ xs, jsWhitespace c = true := fun c hc => hp c (List.mem_cons_of_mem x hc)
    simp [List.dropWhile_cons, hx, ih hxs]

theorem dropWhile_ws_all {l : List Char}
    (hl : ∀ c ∈ l, jsWhitespace c = true) :
    l.dropWhile jsWhitespace = [] :=
  List.dropWhile_eq_nil_iff.mpr fun c hc => hl c hc

/-- Surrounding a character list with whitespace does not change its trim. -/
theorem trimChars_pad {n p q : List Char}
    (hp : ∀ c ∈ p, jsWhitespace c = true) (hq : ∀ c ∈ q, jsWhitespace c = true) :
    trimChars (p ++ n ++ q) = trimChars n := by
  unfold trimChars
  rw [List.append_assoc, dropWhile_ws_append hp]
  cases h1 : n.dropWhile jsWhitespace with
  | nil =>
    rw [List.dropWhile_append, h1]
    simp [dropWhile_ws_all hq]
  | cons x xs =>
    rw [List.dropWhile_append, h1]
    simp only [List.isEmpty_cons, Bool.false_eq_true, if_false, List.reverse_append]
    rw [dropWhile_ws_append (fun c hc => hq c (List.mem_reverse.mp hc))]

theorem jsTrim_pad (n p q : String)
    (hp : ∀ c ∈ p.data, jsWhitespace c = true) (hq : ∀ c ∈ q.data, jsWhitespace c = true) :
    jsTrim (p ++ n ++ q) = jsTrim n := by
  unfold jsTrim
  rw [String.data_append, String.data_append, trimChars_pad hp hq]

/-! ### Structure of the hash string -/

theorem hash_data (d : ReceiptData) :
    (createReceiptHash d).data =
      trimChars d.merchantName.data ++
        '|' :: (trimChars d.date.data ++
          '|' :: (natChars (d.total + 1) d.total ++ '|' :: (itemsString d).data)) := by
  have hbar : ("|" : String).data = ['|'] := rfl
  simp [createReceiptHash, String.data_append, jsTrim, natToString, hbar, List.append_assoc]

theorem itemEntry_pad {a b : ReceiptItem}
    (hpr : b.price = a.price)
    (hname : ∃ p q : String, (∀ c ∈ p.data, jsWhitespace c = true) ∧
      (∀ c ∈ q.data, jsWhitespace c = true) ∧ b.name = p ++ a.name ++ q) :
    itemEntry b = itemEntry a := by
  obtain ⟨p, q, hp, hq, hn⟩ := hname
  unfold itemEntry
  rw [hpr, hn, jsTrim_pad a.name p q hp hq]

theorem map_eq_of_forall₂ {α β : Type} {R : α → α → Prop} {f : α → β}
    (hf : ∀ a b, R a b → f b = f a) :
    ∀ {l l' : List α}, List.Forall₂ R l l' → l'.map f = l.map f := by
  intro l l' h
  induction h with
  | nil => rfl
  | cons hab _ ih => simp [List.map_cons, hf _ _ hab, ih]

/-! ### What the hash does and does not distinguish -/

/-- Reordering the item list leaves the hash unchanged. -/
theorem hash_items_perm (d : ReceiptData) (items' : List ReceiptItem)
    (h : d.items.Perm items') :
    createReceiptHash {d with items := items'} = createReceiptHash d := by
  have hs : sortStrings (d.items.map itemEntry) = sortStrings (items'.map itemEntry) :=
    sortStrings_congr_perm (h.map itemEntry)
  simp only [createReceiptHash, itemsString]
  rw [← hs]

/-- Padding item names with whitespace leaves the hash unchanged. -/
theorem hash_items_ws (d : ReceiptData) (items' : List ReceiptItem)
    (h : List.Forall₂ (fun a b => b.price = a.price ∧
      ∃ p q : String, (∀ c ∈ p.data, jsWhitespace c = true) ∧
        (∀ c ∈ q.data, jsWhitespace c = true) ∧ b.name = p ++ a.name ++ q)
      d.items items') :
    createReceiptHash {d with items := items'} = createReceiptHash d := by
  have hmap : items'.map itemEntry = d.items.map itemEntry :=
    map_eq_of_forall₂ (fun a b hab => itemEntry_pad hab.1 hab.2) h
  simp only [createReceiptHash, itemsString]
  rw [hmap]

/-- Changing the merchant name to one with a different trim changes the hash. -/
theorem hash_merchant_ne (d : ReceiptData) (m' : String)
    (h : jsTrim m' ≠ jsTrim d.merchantName) :
    createReceiptHash {d with merchantName := m'} ≠ createReceiptHash d := by
  intro heq
  apply h
  have hd := congrArg String.data heq
  rw [hash_data, hash_data] at hd
  have := List.append_cancel_right hd
  exact String.ext this

/-- Changing the date to one with a different trim changes the hash. -/
theorem hash_date_ne (d : ReceiptData) (t' : String)
    (h : jsTrim t' ≠ jsTrim d.date) :
    createReceiptHash {d with date := t'} ≠ createReceiptHash d := by
  intro heq
  apply h
  have hd := congrArg String.data heq
  rw [hash_data, hash_data] at hd
  have h1 := List.append_cancel_left hd
  have h2 : trimChars t'.data ++
      '|' :: (natChars (d.total + 1) d.total ++ '|' :: (itemsString d).data) =
      trimChars d.date.data ++
      '|' :: (natChars (d.total + 1) d.total ++ '|' :: (itemsString d).data) :=
    List.cons_injective.eq_iff.mp h1
  exact String.ext (List.append_cancel_right h2)

/-- Changing the total changes the hash. -/
theorem hash_total_ne (d : ReceiptData) (n : Nat) (h : n ≠ d.total) :
    createReceiptHash {d with total := n} ≠ createReceiptHash d := by
  intro heq
  apply h
  have hd := congrArg String.data heq
  rw [hash_data, hash_data] at hd
  have h1 := List.cons_injective.eq_iff.mp (List.append_cancel_left hd)
  have h2 := List.cons_injective.eq_iff.mp (List.append_cancel_left h1)
  have h3 := List.append_cancel_right h2
  exact natChars_inj (n + 1) n (d.total + 1) d.total (by omega) (by omega) h3

/-! ### Concrete records for the hash claims -/

/-- The concrete record from the spec: merchant Cafe, 2025-01-01, total 10. -/
def cafeReceipt : ReceiptData :=
  {merchantName := "Cafe", date := "2025-01-01", total := 10, items := [⟨"Tea", 4⟩, ⟨"Cake", 6⟩]}

/-- The same record with the item list reversed. -/
def cafeReceiptReversed : ReceiptData := {cafeReceipt with items := [⟨"Cake", 6⟩, ⟨"Tea", 4⟩]}

/-- The same record with total 11. -/
def cafeReceiptTotal11 : ReceiptData := {cafeReceipt with total := 11}

/-- Hash collision pair: the two records differ only in the first item's
name (`A1B` versus `B1A`, same price), yet the unseparated
`name ++ price` encodings of the sorted item list concatenate to the
same string. -/
def collideName1 : ReceiptData :=
  {merchantName := "M", date := "2025-01-01", total := 10, items := [⟨"A1B", 1⟩, ⟨"A1B1A", 1⟩]}

def collideName2 : ReceiptData := {collideName1 with items := [⟨"B1A", 1⟩, ⟨"A1B1A", 1⟩]}

/-- Hash collision pair: the two records differ only in the first item's
price (12 versus 21, same name). -/
def collidePrice1 : ReceiptData :=
  {merchantName := "M", date := "2025-01-01", total := 10, items := [⟨"2", 12⟩, ⟨"2122", 1⟩]}

def collidePrice2 : ReceiptData := {collidePrice1 with items := [⟨"2", 21⟩, ⟨"2122", 1⟩]}

/-- Hash collision pair: the two records differ only in the merchant
name, by trailing whitespace that the hash trims away. -/
def collideMerchant1 : ReceiptData :=
  {merchantName := "Cafe", date := "2025-01-01", total := 10, items := [⟨"Tea", 4⟩]}

def collideMerchant2 : ReceiptData := {collideMerchant1 with merchantName := "Cafe "}

/-- Hash collision pair: the two records differ only in the date, by
trailing whitespace that the hash trims away. -/
def collideDate2 : ReceiptData := {collideMerchant1 with date := "2025-01-01 "}

/-- C1, counterexample: the claim "changing any single item's price or
name, or the total, or the date, or the merchant name, changes the hash"
fails.  Two records that differ exactly in one item's name (even after
trimming) share a hash; so do two records that differ exactly in one
item's price; so do records whose merchant name or date differ by
trailing whitespace only. -/
theorem c1_hash_counterexample :
    (createReceiptHash collideName1 = createReceiptHash collideName2
      ∧ collideName1.merchantName = collideName2.merchantName
      ∧ collideName1.date = collideName2.date
      ∧ collideName1.total = collideName2.total
      ∧ collideName1.items.map ReceiptItem.price = collideName2.items.map ReceiptItem.price
      ∧ collideName1.items.tail = collideName2.items.tail
      ∧ jsTrim (collideName1.items.headD ⟨"", 0⟩).name ≠
          jsTrim (collideName2.items.headD ⟨"", 0⟩).name)
    ∧ (createReceiptHash collidePrice1 = createReceiptHash collidePrice2
      ∧ collidePrice1.merchantName = collidePrice2.merchantName
      ∧ collidePrice1.date = collidePrice2.date
      ∧ collidePrice1.total = collidePrice2.total
      ∧ collidePrice1.items.map ReceiptItem.name = collidePrice2.items.map ReceiptItem.name
      ∧ collidePrice1.items.tail = collidePrice2.items.tail
      ∧ (collidePrice1.items.headD ⟨"", 0⟩).price ≠
          (collidePrice2.items.headD ⟨"", 0⟩).price)
    ∧ (createReceiptHash collideMerchant1 = createReceiptHash collideMerchant2
      ∧ collideMerchant1.merchantName ≠ collideMerchant2.merchantName
      ∧ collideMerchant1.date = collideMerchant2.date
      ∧ collideMerchant1.total = collideMerchant2.total
      ∧ collideMerchant1.items = collideMerchant2.items)
    ∧ (createReceiptHash collideMerchant1 = createReceiptHash collideDate2
      ∧ collideMerchant1.date ≠ collideDate2.date
      ∧ collideMerchant1.merchantName = collideDate2.merchantName
      ∧ collideMerchant1.total = collideDate2.total
      ∧ collideMerchant1.items = collideDate2.items) := by
  refine ⟨⟨?_, ?_, ?_, ?_, ?_, ?_, ?_⟩, ⟨?_, ?_, ?_, ?_, ?_, ?_, ?_⟩,
    ⟨?_, ?_, ?_, ?_, ?_⟩, ⟨?_, ?_, ?_, ?_, ?_⟩⟩ <;> decide

/-- C1, amended: the duplicate-detection hash is invariant under
reordering of the item list and under leading/trailing whitespace
padding of item names; changing the total changes the hash, and changing
the merchant name or the date changes the hash whenever the trimmed
value changes; and on the spec's concrete record the hash agrees with
the item-reversed record and differs from the total-11 record.  (Changing
a single item's name or price, or whitespace-only changes to merchant or
date, need not change the hash; see the counterexample.) -/
theorem c1_hash_amended :
    (∀ (d : ReceiptData) (items' : List ReceiptItem), d.items.Perm items' →
      createReceiptHash {d with items := items'} = createReceiptHash d)
    ∧ (∀ (d : ReceiptData) (items' : List ReceiptItem),
        List.Forall₂ (fun a b => b.price = a.price ∧
          ∃ p q : String, (∀ c ∈ p.data, jsWhitespace c = true) ∧
            (∀ c ∈ q.data, jsWhitespace c = true) ∧ b.name = p ++ a.name ++ q)
          d.items items' →
        createReceiptHash {d with items := items'} = createReceiptHash d)
    ∧ (∀ (d : ReceiptData) (m' : String), jsTrim m' ≠ jsTrim d.merchantName →
        createReceiptHash {d with merchantName := m'} ≠ createReceiptHash d)
    ∧ (∀ (d : ReceiptData) (t' : String), jsTrim t' ≠ jsTrim d.date →
        createReceiptHash {d with date := t'} ≠ createReceiptHash d)
    ∧ (∀ (d : ReceiptData) (n : Nat), n ≠ d.total →
        createReceiptHash {d with total := n} ≠ createReceiptHash d)
    ∧ (createReceiptHash cafeReceipt = createReceiptHash cafeReceiptReversed
      ∧ createReceiptHash cafeReceipt ≠ createReceiptHash cafeReceiptTotal11) :=
  ⟨hash_items_perm, hash_items_ws, hash_merchant_ne, hash_date_ne, hash_total_ne,
    by decide, by decide⟩

/-- C1, witness: the amended theorem applied to concrete records. -/
theorem c1_hash_amended_witness :
    createReceiptHash {cafeReceipt with items := [⟨"Cake", 6⟩, ⟨"Tea", 4⟩]} =
        createReceiptHash cafeReceipt
    ∧ createReceiptHash {cafeReceipt with items := [⟨" Tea ", 4⟩, ⟨"Cake", 6⟩]} =
        createReceiptHash cafeReceipt
    ∧ createReceiptHash {cafeReceipt with merchantName := "Bistro"} ≠
        createReceiptHash cafeReceipt
    ∧ createReceiptHash {cafeReceipt with date := "2025-02-02"} ≠
        createReceiptHash cafeReceipt
    ∧ createReceiptHash {cafeReceipt with total := 11} ≠ createReceiptHash cafeReceipt :=
  ⟨c1_hash_amended.1 cafeReceipt _ (by decide),
    c1_hash_amended.2.1 cafeReceipt _ (by
      refine List.Forall₂.cons ⟨by decide, " ", " ", by decide, by decide, by decide⟩ ?_
      exact List.Forall₂.cons ⟨by decide, "", "", by decide, by decide, by decide⟩
        List.Forall₂.nil),
    c1_hash_amended.2.2.1 cafeReceipt "Bistro" (by decide),
    c1_hash_amended.2.2.2.1 cafeReceipt "2025-02-02" (by decide),
    c1_hash_amended.2.2.2.2.1 cafeReceipt 11 (by decide)⟩

/-! ### Monthly viewer (components/ReceiptsViewer.tsx)

The viewer groups the fetched receipts by the `YYYY-MM` prefix of their
date, filters the selected month's group by a case-insensitive merchant
substring search, and sorts with a comparator chosen by the active sort
key and direction.  `Intl`-based `localeCompare(..., {sensitivity:
'base'})` is modelled, per the spec's "case-insensitively" reading, as
code-unit comparison of the lowercased strings (faithful on the ASCII
range); `Array.prototype.sort` is modelled by a stable sort, which is
what the ECMAScript specification guarantees. -/

inductive SortKey
  | date
  | merchantName
  | total
deriving DecidableEq

inductive SortDirection
  | asc
  | desc
deriving DecidableEq

/-- Sign of an ordering, matching the JS comparator convention. -/
def ordToInt : Ordering → Int
  | .lt => -1
  | .eq => 0
  | .gt => 1

/-- Comparison of two receipts under one sort key (the inner part of the
comparator in `sortedAndFilteredReceipts`). -/
def keyOrd : SortKey → ReceiptData → ReceiptData → Ordering
  | .merchantName, a, b => lexCmp (jsToLower a.merchantName).data (jsToLower b.merchantName).data
  | .date, a, b => lexCmp a.date.data b.date.data
  | .total, a, b =>
    if a.total < b.total then .lt else if b.total < a.total then .gt else .eq

/-- The full comparator: `sortDirection === 'asc' ? comparison : -comparison`. -/
def receiptCmp (k : SortKey) (dir : SortDirection) (a b : ReceiptData) : Int :=
  match dir with
  | .asc => ordToInt (keyOrd k a b)
  | .desc => -(ordToInt (keyOrd k a b))

/-- The order produced by `Array.prototype.sort` with `receiptCmp`:
`a` may precede `b` exactly when the comparator is nonpositive. -/
def viewRel (k : SortKey) (dir : SortDirection) (a b : ReceiptData) : Prop :=
  receiptCmp k dir a b ≤ 0

instance (k : SortKey) (dir : SortDirection) : DecidableRel (viewRel k dir) := fun a b => by
  unfold viewRel; infer_instance

/-- `receipt.date.substring(0, 7)`: the `YYYY-MM` month key. -/
def monthKey (r : ReceiptData) : String := ⟨r.date.data.take 7⟩

/-- The selected month's group of `groupedReceipts`: the reduce in the
viewer partitions `allReceipts` by month key preserving order, so the
group for `m` is the in-order sublist of receipts with month key `m`. -/
def receiptsForMonth (receipts : List ReceiptData) (m : String) : List ReceiptData :=
  receipts.filter (fun r => monthKey r == m)

/-- Step 1 of `sortedAndFilteredReceipts`: filter by search text
(`!searchText ? receiptsForMonth : ... .includes(...)`). -/
def filteredReceipts (receipts : List ReceiptData) (m search : String) : List ReceiptData :=
  if search = "" then receiptsForMonth receipts m
  else (receiptsForMonth receipts m).filter
    (fun r => jsIncludes (jsToLower r.merchantName) (jsToLower search))

/-- `sortedAndFilteredReceipts`: empty when no month is selected,
otherwise the filtered list sorted by the active comparator. -/
def sortedAndFilteredReceipts (receipts : List ReceiptData) (m search : String)
    (k : SortKey) (dir : SortDirection) : List ReceiptData :=
  if m = "" then []
  else (filteredReceipts receipts m search).insertionSort (viewRel k dir)

/-- `monthlyTotal`: `reduce((sum, receipt) => sum + receipt.total, 0)`. -/
def monthlyTotal (receipts : List ReceiptData) (m search : String)
    (k : SortKey) (dir : SortDirection) : Nat :=
  (sortedAndFilteredReceipts receipts m search k dir).foldl (fun sum r => sum + r.total) 0

/-! ### Comparator laws -/

theorem keyOrd_swap (k : SortKey) (a b : ReceiptData) :
    keyOrd k b a = (keyOrd k a b).swap := by
  cases k with
  | merchantName => exact lexCmp_swap _ _
  | date => exact lexCmp_swap _ _
  | total =>
    unfold keyOrd
    by_cases h1 : a.total < b.total <;> by_cases h2 : b.total < a.total <;>
      simp [h1, h2, Ordering.swap] <;> omega

theorem keyOrd_eq_iff_total (a b : ReceiptData) :
    keyOrd .total a b = .eq ↔ a.total = b.total := by
  unfold keyOrd
  by_cases h1 : a.total < b.total <;> by_cases h2 : b.total < a.total <;>
    simp [h1, h2] <;> omega

theorem keyOrd_le_trans (k : SortKey) (a b c : ReceiptData)
    (hab : keyOrd k a b ≠ .gt) (hbc : keyOrd k b c ≠ .gt) : keyOrd k a c ≠ .gt := by
  cases k with
  | merchantName => exact lexCmp_le_trans _ _ _ hab hbc
  | date => exact lexCmp_le_trans _ _ _ hab hbc
  | total =>
    unfold keyOrd at *
    by_cases h1 : a.total < b.total <;> by_cases h2 : b.total < a.total <;>
      by_cases h3 : b.total < c.total <;> by_cases h4 : c.total < b.total <;>
        simp [h1, h2, h3, h4] at hab hbc ⊢ <;> omega

theorem receiptCmp_nonpos_iff (k : SortKey) (a b : ReceiptData) :
    (receiptCmp k .asc a b ≤ 0 ↔ keyOrd k a b ≠ .gt)
    ∧ (receiptCmp k .desc a b ≤ 0 ↔ keyOrd k b a ≠ .gt) := by
  constructor
  · unfold receiptCmp
    rcases h : keyOrd k a b <;> simp [h, ordToInt]
  · unfold receiptCmp
    rw [keyOrd_swap k a b]
    rcases h : keyOrd k a b <;> simp [h, ordToInt, Ordering.swap]

theorem viewRel_total (k : SortKey) (dir : SortDirection) (a b : ReceiptData) :
    viewRel k dir a b ∨ viewRel k dir b a := by
  unfold viewRel
  cases dir with
  | asc =>
    rw [(receiptCmp_nonpos_iff k a b).1, (receiptCmp_nonpos_iff k b a).1,
      keyOrd_swap k a b]
    rcases keyOrd k a b <;> simp [Ordering.swap]
  | desc =>
    rw [(receiptCmp_nonpos_iff k a b).2, (receiptCmp_nonpos_iff k b a).2,
      keyOrd_swap k a b]
    rcases keyOrd k a b <;> simp [Ordering.swap]

theorem viewRel_trans (k : SortKey) (dir : SortDirection) (a b c : ReceiptData)
    (hab : viewRel k dir a b) (hbc : viewRel k dir b c) : viewRel k dir a c := by
  unfold viewRel at *
  cases dir with
  | asc =>
    rw [(receiptCmp_nonpos_iff k a b).1] at hab
    rw [(receiptCmp_nonpos_iff k b c).1] at hbc
    rw [(receiptCmp_nonpos_iff k a c).1]
    exact keyOrd_le_trans k a b c hab hbc
  | desc =>
    rw [(receiptCmp_nonpos_iff k a b).2] at hab
    rw [(receiptCmp_nonpos_iff k b c).2] at hbc
    rw [(receiptCmp_nonpos_iff k a c).2]
    exact keyOrd_le_trans k c b a hbc hab

theorem receiptCmp_zero_iff (k : SortKey) (dir : SortDirection) (a b : ReceiptData) :
    receiptCmp k dir a b = 0 ↔ keyOrd k a b = .eq := by
  unfold receiptCmp
  cases dir <;> rcases h : keyOrd k a b <;> simp [h, ordToInt]

/-- Two records tied with a common pivot are tied with each other. -/
theorem receiptCmp_tie_trans (k : SortKey) (dir : SortDirection) (x a y : ReceiptData)
    (hxa : receiptCmp k dir x a = 0) (hxy : receiptCmp k dir x y = 0) :
    receiptCmp k dir a y = 0 := by
  rw [receiptCmp_zero_iff] at *
  cases k with
  | merchantName =>
    unfold keyOrd at *
    rw [lexCmp_eq_iff] at *
    rw [← hxa, hxy]
  | date =>
    unfold keyOrd at *
    rw [lexCmp_eq_iff] at *
    rw [← hxa, hxy]
  | total =>
    rw [keyOrd_eq_iff_total] at *
    omega

/-! ### Stability of the modelled sort -/

theorem filter_orderedInsert_pos {α : Type} (r : α → α → Prop) [DecidableRel r]
    (q : α → Bool) (a : α) (hqa : q a = true) (hmin : ∀ y, q y = true → r a y) :
    ∀ l : List α, (l.orderedInsert r a).filter q = a :: l.filter q := by
  intro l
  induction l with
  | nil => simp [List.orderedInsert, hqa]
  | cons y ys ih =>
    by_cases hr : r a y
    · simp [List.orderedInsert, hr, List.filter_cons, hqa]
    · have hqy : q y = false := by
        cases hy : q y with
        | false => rfl
        | true => exact absurd (hmin y hy) hr
      simp [List.orderedInsert, hr, List.filter_cons, hqy, ih]

theorem filter_orderedInsert_neg {α : Type} (r : α → α → Prop) [DecidableRel r]
    (q : α → Bool) (a : α) (hqa : q a = false) :
    ∀ l : List α, (l.orderedInsert r a).filter q = l.filter q := by
  intro l
  induction l with
  | nil => simp [List.orderedInsert, hqa]
  | cons y ys ih =>
    by_cases hr : r a y
    · simp [List.orderedInsert, hr, List.filter_cons, hqa]
    · simp [List.orderedInsert, hr, List.filter_cons, ih]

/-- Insertion sort is stable: elements of any "tie class" (described by a
predicate whose members must all be inserted before one another, i.e.
mutually related) appear in the output in their input order. -/
theorem filter_insertionSort {α : Type} (r : α → α → Prop) [DecidableRel r]
    (q : α → Bool) (hq : ∀ a, q a = true → ∀ y, q y = true → r a y) :
    ∀ l : List α, (l.insertionSort r).filter q = l.filter q := by
  intro l
  induction l with
  | nil => rfl
  | cons a l ih =>
    rw [List.insertionSort]
    cases hqa : q a with
    | true =>
      rw [filter_orderedInsert_pos r q a hqa (hq a hqa), ih]
      simp [List.filter_cons, hqa]
    | false =>
      rw [filter_orderedInsert_neg r q a hqa, ih]
      simp [List.filter_cons, hqa]

/-! ### Claims C3, C4, C9 -/

/-- C3: a record appears in the monthly viewer's result set iff it is a
fetched record whose date has the selected `YYYY-MM` month as its
7-character head and, unless the search text is empty, whose merchant
name case-insensitively contains the search text; with an empty search
every record of the selected month appears. -/
theorem c3_filter_membership (receipts : List ReceiptData) (m search : String)
    (k : SortKey) (dir : SortDirection) (r : ReceiptData) (hm : m ≠ "") :
    r ∈ sortedAndFilteredReceipts receipts m search k dir ↔
      r ∈ receipts ∧ monthKey r = m ∧
        (search = "" ∨ jsIncludes (jsToLower r.merchantName) (jsToLower search) = true) := by
  unfold sortedAndFilteredReceipts
  rw [if_neg hm, List.mem_insertionSort]
  unfold filteredReceipts receiptsForMonth
  by_cases hs : search = ""
  · rw [if_pos hs]
    simp [List.mem_filter, hs, monthKey]
  · rw [if_neg hs]
    simp only [List.mem_filter, beq_iff_eq]
    constructor
    · rintro ⟨⟨hr, hmk⟩, hinc⟩
      exact ⟨hr, hmk, Or.inr hinc⟩
    · rintro ⟨hr, hmk, hinc⟩
      rcases hinc with hinc | hinc
      · exact absurd hinc hs
      · exact ⟨⟨hr, hmk⟩, hinc⟩

/-- Sample record used by the viewer witnesses. -/
def sampleCoffee : ReceiptData :=
  {merchantName := "Coffee Shop", date := "2025-01-02", total := 7, items := []}

/-- Sample record used by the viewer witnesses. -/
def sampleBakery : ReceiptData :=
  {merchantName := "Bakery", date := "2025-01-05", total := 3, items := []}

/-- C3 witness: the membership characterization at a concrete list. -/
theorem c3_filter_membership_witness :
    sampleCoffee ∈ sortedAndFilteredReceipts [sampleCoffee] "2025-01" "" .date .desc ↔
      sampleCoffee ∈ [sampleCoffee] ∧ monthKey sampleCoffee = "2025-01" ∧
        ("" = "" ∨ jsIncludes (jsToLower sampleCoffee.merchantName) (jsToLower "") = true) :=
  c3_filter_membership [sampleCoffee] "2025-01" "" .date .desc sampleCoffee (by decide)

/-- C4: the monthly viewer's result set is a permutation of the filtered
list, it is sorted by the active key in the active direction, and ties
under the active comparator keep their relative input order (stability,
expressed by tie-class filters). -/
theorem c4_sort_order (receipts : List ReceiptData) (m search : String)
    (k : SortKey) (dir : SortDirection) (hm : m ≠ "") :
    (sortedAndFilteredReceipts receipts m search k dir).Perm
        (filteredReceipts receipts m search)
    ∧ List.Sorted (viewRel k dir) (sortedAndFilteredReceipts receipts m search k dir)
    ∧ ∀ x : ReceiptData,
        (sortedAndFilteredReceipts receipts m search k dir).filter
            (fun y => receiptCmp k dir x y == 0) =
          (filteredReceipts receipts m search).filter
            (fun y => receiptCmp k dir x y == 0) := by
  unfold sortedAndFilteredReceipts
  rw [if_neg hm]
  refine ⟨List.perm_insertionSort _ _, ?_, ?_⟩
  · haveI : IsTotal ReceiptData (viewRel k dir) := ⟨viewRel_total k dir⟩
    haveI : IsTrans ReceiptData (viewRel k dir) := ⟨viewRel_trans k dir⟩
    exact List.sorted_insertionSort _ _
  · intro x
    apply filter_insertionSort
    intro a ha y hy
    rw [beq_iff_eq] at ha hy
    unfold viewRel
    rw [receiptCmp_tie_trans k dir x a y ha hy]

/-- C4 witness: the sort characterization at a concrete list. -/
theorem c4_sort_order_witness :
    (sortedAndFilteredReceipts [sampleCoffee, sampleBakery] "2025-01" "" .merchantName .asc).Perm
        (filteredReceipts [sampleCoffee, sampleBakery] "2025-01" "")
    ∧ List.Sorted (viewRel .merchantName .asc)
        (sortedAndFilteredReceipts [sampleCoffee, sampleBakery] "2025-01" "" .merchantName .asc)
    ∧ ∀ x : ReceiptData,
        (sortedAndFilteredReceipts [sampleCoffee, sampleBakery] "2025-01" "" .merchantName .asc).filter
            (fun y => receiptCmp .merchantName .asc x y == 0) =
          (filteredReceipts [sampleCoffee, sampleBakery] "2025-01" "").filter
            (fun y => receiptCmp .merchantName .asc x y == 0) :=
  c4_sort_order [sampleCoffee, sampleBakery] "2025-01" "" .merchantName .asc (by decide)

theorem foldl_total_eq_sum (l : List ReceiptData) :
    ∀ n : Nat, l.foldl (fun sum r => sum + r.total) n = n + (l.map ReceiptData.total).sum := by
  induction l with
  | nil => intro n; simp
  | cons r l ih =>
    intro n
    rw [List.foldl_cons, ih (n + r.total)]
    simp [List.map_cons, List.sum_cons]
    omega

/-- C9: the displayed monthly total is the sum of the totals of exactly
the records in the filtered-and-sorted result set, which equals the sum
over the records matching the month and search filters (so a merchant
search narrows the displayed total to the matching receipts only). -/
theorem c9_monthly_total (receipts : List ReceiptData) (m search : String)
    (k : SortKey) (dir : SortDirection) (hm : m ≠ "") :
    monthlyTotal receipts m search k dir =
        ((sortedAndFilteredReceipts receipts m search k dir).map ReceiptData.total).sum
    ∧ monthlyTotal receipts m search k dir =
        ((filteredReceipts receipts m search).map ReceiptData.total).sum := by
  have h1 : monthlyTotal receipts m search k dir =
      ((sortedAndFilteredReceipts receipts m search k dir).map ReceiptData.total).sum := by
    unfold monthlyTotal
    rw [foldl_total_eq_sum]
    omega
  refine ⟨h1, ?_⟩
  rw [h1]
  apply List.Perm.sum_eq
  apply List.Perm.map
  exact (c4_sort_order receipts m search k dir hm).1

/-- C9 witness: with a search string, the displayed total sums only the
matching receipts. -/
theorem c9_monthly_total_witness :
    monthlyTotal [sampleCoffee, sampleBakery] "2025-01" "coffee" .date .desc =
        ((sortedAndFilteredReceipts [sampleCoffee, sampleBakery] "2025-01" "coffee"
          .date .desc).map ReceiptData.total).sum
    ∧ monthlyTotal [sampleCoffee, sampleBakery] "2025-01" "coffee" .date .desc =
        ((filteredReceipts [sampleCoffee, sampleBakery] "2025-01" "coffee").map
          ReceiptData.total).sum :=
  c9_monthly_total [sampleCoffee, sampleBakery] "2025-01" "coffee" .date .desc (by decide)

/-! ### Authorization (contexts/AuthContext.tsx and the App gate)

`checkAuthorization` compares the signed-in user's email with the
configured `ALLOWED_EMAIL`; a missing value is `none` and JavaScript
also treats the empty string as falsy. -/

/-- `checkAuthorization` from AuthContext.tsx. -/
def checkAuthorization (userEmail allowedEmail : Option String) : Bool :=
  match userEmail, allowedEmail with
  | some u, some a =>
    if u = "" || a = "" then false
    else jsToLower u == jsToLower a
  | _, _ => false

/-- What the App component renders. -/
inductive AppView
  | spinner
  | login
  | accessDenied
  | scannerAndViewer
deriving DecidableEq

/-- The top-level render gate of the App component: loading spinner,
then login screen, then the access-denied screen for unauthorized
users, and the scanner/viewer main UI only for authorized ones. -/
def appView (loading : Bool) (user : Option String) (isAuthorized : Bool) : AppView :=
  if loading then .spinner
  else
    match user with
    | none => .login
    | some _ => if !isAuthorized then .accessDenied else .scannerAndViewer

/-- C7: a signed-in user is authorized iff both the user's email and the
configured allowed email are present (non-empty) and equal
case-insensitively; and the App renders the access-denied screen, never
the scanner and viewer, exactly when the authorization check fails. -/
theorem c7_authorization :
    (∀ userEmail allowedEmail : Option String,
      checkAuthorization userEmail allowedEmail = true ↔
        ∃ u a : String, userEmail = some u ∧ allowedEmail = some a ∧
          u ≠ "" ∧ a ≠ "" ∧ jsToLower u = jsToLower a)
    ∧ (∀ (e : String) (userEmail allowedEmail : Option String),
        appView false (some e) (checkAuthorization userEmail allowedEmail) =
          if checkAuthorization userEmail allowedEmail then .scannerAndViewer
          else .accessDenied) := by
  constructor
  · intro ue ae
    cases ue with
    | none => simp [checkAuthorization]
    | some u =>
      cases ae with
      | none => simp [checkAuthorization]
      | some a =>
        by_cases hu : u = "" <;> by_cases ha : a = "" <;>
          simp [checkAuthorization, hu, ha, beq_iff_eq]
  · intro e ue ae
    cases h : checkAuthorization ue ae <;> simp [appView, h]

/-! ### Local storage and the Google archival services

`localStorage` is modelled as an association list of key/value pairs;
`setItem`/`removeItem` are the only mutations.  The network responses
the services branch on are supplied by oracles. -/

/-- The browser's local storage. -/
def LocalStore : Type := List (String × String)

/-- `localStorage.getItem`. -/
def lsGet (ls : LocalStore) (k : String) : Option String :=
  (List.find? (fun p => p.fst == k) ls).map (fun p => p.snd)

/-- `localStorage.setItem`. -/
def lsSet (ls : LocalStore) (k v : String) : LocalStore :=
  (k, v) :: List.filter (fun p => !(p.fst == k)) ls

/-- `localStorage.removeItem`. -/
def lsRemove (ls : LocalStore) (k : String) : LocalStore :=
  List.filter (fun p => !(p.fst == k)) ls

theorem lsGet_filter_ne (ls : LocalStore) (k k' : String) (h : k' ≠ k) :
    lsGet (List.filter (fun p => !(p.fst == k)) ls) k' = lsGet ls k' := by
  unfold lsGet
  induction ls with
  | nil => rfl
  | cons p ps ih =>
    by_cases hp : p.fst = k
    · have hb : (p.fst == k) = true := beq_iff_eq.mpr hp
      have hb' : (p.fst == k') = false :=
        beq_eq_false_iff_ne.mpr (fun he => h ((hp ▸ he).symm))
      rw [List.filter_cons_of_neg (by simp [hb])]
      rw [List.find?_cons_of_neg _ (by simp [hb'])]
      exact ih
    · have hb : (p.fst == k) = false := beq_eq_false_iff_ne.mpr hp
      rw [List.filter_cons_of_pos (by simp [hb])]
      by_cases hp' : p.fst = k'
      · have hb' : (p.fst == k') = true := beq_iff_eq.mpr hp'
        rw [List.find?_cons_of_pos _ (by simp [hb']),
          List.find?_cons_of_pos _ (by simp [hb'])]
      · have hb' : (p.fst == k') = false := beq_eq_false_iff_ne.mpr hp'
        rw [List.find?_cons_of_neg _ (by simp [hb']),
          List.find?_cons_of_neg _ (by simp [hb'])]
        exact ih

theorem lsGet_lsSet_ne (ls : LocalStore) (k k' v : String) (h : k' ≠ k) :
    lsGet (lsSet ls k v) k' = lsGet ls k' := by
  unfold lsSet
  have hk : (((k, v) : String × String).fst == k') = false :=
    beq_eq_false_iff_ne.mpr (fun he => h he.symm)
  show lsGet ((k, v) :: List.filter (fun p => !(p.fst == k)) ls) k' = lsGet ls k'
  unfold lsGet
  rw [List.find?_cons_of_neg _ (by simp [hk])]
  exact lsGet_filter_ne ls k k' h

theorem lsGet_lsRemove_ne (ls : LocalStore) (k k' : String) (h : k' ≠ k) :
    lsGet (lsRemove ls k) k' = lsGet ls k' :=
  lsGet_filter_ne ls k k' h

/-- The Sheets service's session state: the cached spreadsheet id. -/
structure SheetsState where
  spreadsheetId : Option String
deriving DecidableEq

/-- Outcome of verifying a stored spreadsheet id against the Sheets API. -/
inductive VerifyOutcome
  | ok
  | notOk
  | throws
deriving DecidableEq

/-- Network oracle for `ensureSpreadsheet`: the verification response for
a stored id, and the creation response. -/
structure SheetsOracle where
  verify : VerifyOutcome
  createOk : Bool
  createdId : String
deriving DecidableEq

/-- `GoogleSheetsService.ensureSpreadsheet`: reuse the id stored under
the `googleSheetsId` local-storage key when the API confirms it; on a
thrown verification error remove the stale key; otherwise create a new
spreadsheet and store its id under the same key. -/
def ensureSpreadsheet (st : SheetsState) (ls : LocalStore) (o : SheetsOracle) :
    Except String (SheetsState × String) × LocalStore :=
  let create : LocalStore → Except String (SheetsState × String) × LocalStore :=
    fun ls' =>
      if o.createOk then
        (.ok (⟨some o.createdId⟩, o.createdId), lsSet ls' "googleSheetsId" o.createdId)
      else (.error "Failed to create spreadsheet", ls')
  match lsGet ls "googleSheetsId" with
  | some storedId =>
    match o.verify with
    | .ok => (.ok (⟨some storedId⟩, storedId), ls)
    | .notOk => create ls
    | .throws => create (lsRemove ls "googleSheetsId")
  | none => create ls

/-- `GoogleSheetsService.resetSpreadsheet`: clear the cached id and the
local-storage key. -/
def resetSpreadsheet (_st : SheetsState) (ls : LocalStore) :
    SheetsState × LocalStore :=
  (⟨none⟩, lsRemove ls "googleSheetsId")

/-- The Drive service's session state: the cached folder id (never
persisted). -/
structure DriveState where
  folderId : Option String
deriving DecidableEq

/-- Network oracle for `ensureFolder`: the search result and the
creation response. -/
structure DriveOracle where
  searchFound : Option String
  createOk : Bool
  createdId : String
deriving DecidableEq

/-- `GoogleDriveService.ensureFolder`: return the session-cached folder
id, or search for the folder, or create it; local storage is never
touched, the id lives only in the service instance. -/
def ensureFolder (st : DriveState) (ls : LocalStore) (o : DriveOracle) :
    Except String (DriveState × String) × LocalStore :=
  match st.folderId with
  | some fid => (.ok (st, fid), ls)
  | none =>
    match o.searchFound with
    | some fid => (.ok (⟨some fid⟩, fid), ls)
    | none =>
      if o.createOk then (.ok (⟨some o.createdId⟩, o.createdId), ls)
      else (.error "Failed to create folder", ls)

/-- C8: the archival services only ever write or remove the
`googleSheetsId` local-storage key — every other key reads the same
before and after `ensureSpreadsheet` and `resetSpreadsheet` — and the
Drive service leaves local storage entirely unchanged, caching the
folder id only in its per-session state. -/
theorem c8_local_storage_frame :
    (∀ (st : SheetsState) (ls : LocalStore) (o : SheetsOracle) (k : String),
      k ≠ "googleSheetsId" → lsGet (ensureSpreadsheet st ls o).2 k = lsGet ls k)
    ∧ (∀ (st : SheetsState) (ls : LocalStore) (k : String),
      k ≠ "googleSheetsId" → lsGet (resetSpreadsheet st ls).2 k = lsGet ls k)
    ∧ (∀ (st : DriveState) (ls : LocalStore) (o : DriveOracle),
      (ensureFolder st ls o).2 = ls) := by
  refine ⟨?_, ?_, ?_⟩
  · intro st ls o k hk
    unfold ensureSpreadsheet
    cases h : lsGet ls "googleSheetsId" with
    | some storedId =>
      cases o.verify with
      | ok => simp
      | notOk =>
        by_cases hc : o.createOk <;>
          simp [hc, lsGet_lsSet_ne _ _ _ _ hk]
      | throws =>
        by_cases hc : o.createOk <;>
          simp [hc, lsGet_lsSet_ne _ _ _ _ hk, lsGet_lsRemove_ne _ _ _ hk]
    | none =>
      by_cases hc : o.createOk <;>
        simp [hc, lsGet_lsSet_ne _ _ _ _ hk]
  · intro st ls k hk
    exact lsGet_lsRemove_ne ls _ k hk
  · intro st ls o
    unfold ensureFolder
    cases st.folderId with
    | some fid => rfl
    | none =>
      cases o.searchFound with
      | some fid => rfl
      | none => by_cases hc : o.createOk <;> simp [hc]

/-- C8 witness: the frame property at a concrete store holding an
unrelated key. -/
theorem c8_local_storage_frame_witness :
    lsGet (ensureSpreadsheet ⟨none⟩ [("theme", "dark")] ⟨.ok, true, "sheet1"⟩).2 "theme" =
        lsGet [("theme", "dark")] "theme"
    ∧ lsGet (resetSpreadsheet ⟨some "sheet1"⟩ [("theme", "dark")]).2 "theme" =
        lsGet [("theme", "dark")] "theme"
    ∧ (ensureFolder ⟨none⟩ [("theme", "dark")] ⟨none, true, "folder1"⟩).2 =
        [("theme", "dark")] :=
  ⟨c8_local_storage_frame.1 ⟨none⟩ [("theme", "dark")] ⟨.ok, true, "sheet1"⟩ "theme" (by decide),
    c8_local_storage_frame.2.1 ⟨some "sheet1"⟩ [("theme", "dark")] "theme" (by decide),
    c8_local_storage_frame.2.2 ⟨none⟩ [("theme", "dark")] ⟨none, true, "folder1"⟩⟩

/-! ### Saving to the hosted database (services/receiptService.ts)

The receipts table is modelled as a list of rows.  The hosted database
is external; its behaviour on insert is taken from the spec. -/

/-- A row of the `receipts` table. -/
structure StoredRow where
  merchant_name : String
  date : String
  total : Nat
  items : List ReceiptItem
  unique_hash : String
deriving DecidableEq

/-- Modelled from the spec: the external database's uniqueness constraint
on `unique_hash` rejects an insert whose hash already exists, reporting
the PostgreSQL unique-violation code 23505, and leaves the table
unchanged; otherwise the row is appended. -/
def supabaseInsertReceipt (store : List StoredRow) (row : StoredRow) :
    Option String × List StoredRow :=
  if store.any (fun r => r.unique_hash == row.unique_hash) then (some "23505", store)
  else (none, store ++ [row])

/-- The result record returned by `saveReceipt`. -/
structure SaveResult where
  isDuplicate : Bool
  error : Option String
  notConfigured : Bool
deriving DecidableEq

/-- `saveReceipt` from receiptService.ts: compute the hash, insert, and
translate a 23505 unique-violation into `isDuplicate`. -/
def saveReceipt (configured : Bool) (store : List StoredRow) (receiptData : ReceiptData) :
    SaveResult × List StoredRow :=
  if !configured then
    ({isDuplicate := false, error := some "Supabase not configured.", notConfigured := true},
      store)
  else
    let uniqueHash := createReceiptHash receiptData
    let row : StoredRow :=
      {merchant_name := receiptData.merchantName, date := receiptData.date,
        total := receiptData.total, items := receiptData.items, unique_hash := uniqueHash}
    match supabaseInsertReceipt store row with
    | (some code, store') =>
      if code == "23505" then
        ({isDuplicate := true, error := none, notConfigured := false}, store')
      else ({isDuplicate := false, error := some code, notConfigured := false}, store')
    | (none, store') =>
      ({isDuplicate := false, error := none, notConfigured := false}, store')

/-! ### The per-receipt processing pipeline (App) -/

/-- `ProcessingStatus` from types.ts; `error` carries the message shown
to the user. -/
inductive ProcessingStatus
  | pending
  | analyzing
  | saving
  | saved
  | duplicate
  | notConfigured
  | error (msg : String)
deriving DecidableEq

/-- The branch of `handleConfirmSave` that maps a save result to the
item's final status. -/
def statusOfSave (r : SaveResult) : ProcessingStatus :=
  if r.notConfigured then .notConfigured
  else if r.isDuplicate then .duplicate
  else
    match r.error with
    | some _ => .error "Failed to save to database."
    | none => .saved

/-- What the user does in the confirmation modal. -/
inductive UserAction
  | confirm (edited : ReceiptData)
  | cancel
deriving DecidableEq

/-- The environment's behaviour for one queued image: the outcome of the
Gemini analysis, the user's modal action, and the Drive upload result
(`some (fileId, webViewLink)` on success). -/
structure QueueOracle where
  analysis : Except String ReceiptData
  action : UserAction
  driveUpload : Option (String × String)

/-- `dataWithGoogleInfo` in `handleConfirmSave`. -/
def withGoogleInfo (edited : ReceiptData) (drive : Option (String × String)) : ReceiptData :=
  {edited with driveFileId := (drive.map (fun p => p.fst)), imageUrl := (drive.map (fun p => p.snd))}

/-- The App state the pipeline manipulates. -/
structure ScannerState where
  results : List ProcessingStatus
  store : List StoredRow
  isLoading : Bool
deriving DecidableEq

/-- `processCurrentReceipt`/`handleConfirmSave`/`handleCancelConfirmation`:
one image at a time, in order.  Index `i` is the current image; the
returned list is the sequence of states the UI passes through.  On an
analysis error the item is marked `error` and the next image follows; on
success the modal opens, and the user's confirm leads to `saving` and
then the saved/duplicate/not-configured/error outcome of `saveReceipt`,
a cancel marks the item "Cancelled by user"; either way the next image
follows.  After the last image `isLoading` is cleared. -/
def processQueue (configured : Bool) :
    List QueueOracle → Nat → ScannerState → List ScannerState
  | [], _, st => [{st with isLoading := false}]
  | o :: rest, i, st =>
    let s1 : ScannerState := {st with results := st.results.set i .analyzing, isLoading := true}
    match o.analysis with
    | .error msg =>
      let s2 : ScannerState := {s1 with results := s1.results.set i (.error msg)}
      s1 :: s2 :: processQueue configured rest (i + 1) s2
    | .ok _data =>
      match o.action with
      | .cancel =>
        let s2 : ScannerState :=
          {s1 with results := s1.results.set i (.error "Cancelled by user")}
        s1 :: s2 :: processQueue configured rest (i + 1) s2
      | .confirm edited =>
        let s2 : ScannerState := {s1 with results := s1.results.set i .saving}
        let save := saveReceipt configured s1.store (withGoogleInfo edited o.driveUpload)
        let s3 : ScannerState :=
          {s2 with results := s2.results.set i (statusOfSave save.fst), store := save.snd}
        s1 :: s2 :: s3 :: processQueue configured rest (i + 1) s3

/-- `performAnalysis`: seed one `pending` result per image and process
the queue from index 0. -/
def runScanner (configured : Bool) (oracles : List QueueOracle)
    (store0 : List StoredRow) : List ScannerState :=
  let init : ScannerState :=
    {results := List.replicate oracles.length .pending, store := store0, isLoading := true}
  init :: processQueue configured oracles 0 init

/-- Statuses that end an item's processing. -/
def isTerminal : ProcessingStatus → Bool
  | .saved => true
  | .duplicate => true
  | .notConfigured => true
  | .error _ => true
  | _ => false

/-- Statuses in which an item is actively being worked on. -/
def isActive : ProcessingStatus → Bool
  | .analyzing => true
  | .saving => true
  | _ => false

/-! ### Queue invariants -/

theorem getD_set_self {α : Type} (l : List α) (i : Nat) (a d : α) (h : i < l.length) :
    (l.set i a).getD i d = a := by
  rw [List.getD_eq_getElem?_getD, List.getElem?_set_self h]
  rfl

theorem getD_set_ne {α : Type} (l : List α) (i j : Nat) (a d : α) (h : i ≠ j) :
    (l.set i a).getD j d = l.getD j d := by
  rw [List.getD_eq_getElem?_getD, List.getElem?_set_ne h, ← List.getD_eq_getElem?_getD]

theorem getD_replicate_self {α : Type} (n j : Nat) (x : α) :
    (List.replicate n x).getD j x = x := by
  rw [List.getD_eq_getElem?_getD, List.getElem?_replicate]
  split <;> rfl

theorem isTerminal_statusOfSave (r : SaveResult) : isTerminal (statusOfSave r) = true := by
  unfold statusOfSave
  by_cases h1 : r.notConfigured <;> by_cases h2 : r.isDuplicate <;>
    cases h3 : r.error <;> simp [h1, h2, h3, isTerminal]

/-- The shape of every state the pipeline passes through: for some
frontier `m`, everything before `m` is finished and everything after `m`
is still untouched. -/
def Frontier (s : ScannerState) : Prop :=
  ∃ m, (∀ j, j < m → isTerminal (s.results.getD j .pending) = true) ∧
    (∀ j, m < j → s.results.getD j .pending = .pending)

theorem processQueue_inv (configured : Bool) :
    ∀ (oracles : List QueueOracle) (i : Nat) (st : ScannerState),
      st.results.length = i + oracles.length →
      (∀ j, j < i → isTerminal (st.results.getD j .pending) = true) →
      (∀ j, i ≤ j → st.results.getD j .pending = .pending) →
      ∀ s ∈ processQueue configured oracles i st, Frontier s := by
  intro oracles
  induction oracles with
  | nil =>
    intro i st _hlen h1 h2 s hs
    simp only [processQueue, List.mem_singleton] at hs
    subst hs
    exact ⟨i, h1, fun j hj => h2 j (by omega)⟩
  | cons o rest ih =>
    intro i st hlen h1 h2 s hs
    have hilen : i < st.results.length := by simp at hlen; omega
    -- facts about the first intermediate state
    have hs1term : ∀ (x : ProcessingStatus) j, j < i →
        isTerminal ((st.results.set i x).getD j .pending) = true := by
      intro x j hj
      rw [getD_set_ne _ _ _ _ _ (by omega)]
      exact h1 j hj
    have hs1pend : ∀ (x : ProcessingStatus) j, i < j →
        (st.results.set i x).getD j .pending = .pending := by
      intro x j hj
      rw [getD_set_ne _ _ _ _ _ (by omega)]
      exact h2 j (by omega)
    have hset2 : ∀ (x y : ProcessingStatus), (st.results.set i x).set i y = st.results.set i y :=
      fun x y => List.set_set x y st.results i
    have hsetlen : ∀ (x : ProcessingStatus), (st.results.set i x).length = st.results.length :=
      fun x => List.length_set st.results i x
    -- preconditions for the recursive call after index i reaches status `x`
    have hrec : ∀ (x : ProcessingStatus), isTerminal x = true →
        ∀ (newStore : List StoredRow) s', s' ∈ processQueue configured rest (i + 1)
          ⟨st.results.set i x, newStore, true⟩ → Frontier s' := by
      intro x hx newStore s' hs'
      apply ih (i + 1) _ _ _ _ s' hs'
      · simp [hsetlen]
        simp at hlen
        omega
      · intro j hj
        by_cases hji : j = i
        · subst hji
          rw [getD_set_self _ _ _ _ hilen]
          exact hx
        · rw [getD_set_ne _ _ _ _ _ (by omega)]
          exact h1 j (by omega)
      · intro j hj
        rw [getD_set_ne _ _ _ _ _ (by omega)]
        exact h2 j (by omega)
    rcases ha : o.analysis with msg | data
    · simp only [processQueue, ha, List.mem_cons] at hs
      rcases hs with rfl | hs
      · exact ⟨i, hs1term _, hs1pend _⟩
      rcases hs with rfl | hs
      · exact ⟨i, by simp only [hset2]; exact hs1term _, by simp only [hset2]; exact hs1pend _⟩
      · exact hrec (.error msg) rfl st.store s (by simpa only [hset2] using hs)
    · rcases hact : o.action with edited | _
      · simp only [processQueue, ha, hact, List.mem_cons] at hs
        rcases hs with rfl | hs
        · exact ⟨i, hs1term _, hs1pend _⟩
        rcases hs with rfl | hs
        · exact ⟨i, by simp only [hset2]; exact hs1term _, by simp only [hset2]; exact hs1pend _⟩
        rcases hs with rfl | hs
        · refine ⟨i, ?_, ?_⟩
          · simp only [hset2]; exact hs1term _
          · simp only [hset2]; exact hs1pend _
        · exact hrec (statusOfSave (saveReceipt configured st.store
            (withGoogleInfo edited o.driveUpload)).fst) (isTerminal_statusOfSave _)
            (saveReceipt configured st.store (withGoogleInfo edited o.driveUpload)).snd s
            (by simpa only [hset2] using hs)
      · simp only [processQueue, ha, hact, List.mem_cons] at hs
        rcases hs with rfl | hs
        · exact ⟨i, hs1term _, hs1pend _⟩
        rcases hs with rfl | hs
        · exact ⟨i, by simp only [hset2]; exact hs1term _, by simp only [hset2]; exact hs1pend _⟩
        · exact hrec (.error "Cancelled by user") rfl st.store s
            (by simpa only [hset2] using hs)

theorem frontier_conclusions {s : ScannerState} (h : Frontier s) :
    (∀ j k, j ≠ k →
      ¬(isActive (s.results.getD j .pending) = true ∧
        isActive (s.results.getD k .pending) = true))
    ∧ (∀ j, s.results.getD (j + 1) .pending ≠ .pending →
        isTerminal (s.results.getD j .pending) = true) := by
  obtain ⟨m, hterm, hpend⟩ := h
  have hactive : ∀ j, isActive (s.results.getD j .pending) = true → j = m := by
    intro j hj
    by_cases hjm : j < m
    · have := hterm j hjm
      rcases hst : s.results.getD j .pending <;>
        rw [hst] at this hj <;> simp [isTerminal, isActive] at this hj
    · by_cases hmj : m < j
      · have := hpend j hmj
        rw [this] at hj
        simp [isActive] at hj
      · omega
  constructor
  · intro j k hjk ⟨hja, hka⟩
    exact hjk ((hactive j hja).trans (hactive k hka).symm)
  · intro j hj
    have hjm : j + 1 ≤ m := by
      by_contra hc
      exact hj (hpend (j + 1) (by omega))
    exact hterm j (by omega)

/-- C5: receipts are processed strictly one at a time in upload order:
in every state the pipeline passes through, no two images are
simultaneously in the `analyzing` or `saving` state, and an image's
processing has begun (its status left `pending`) only once its
predecessor has reached a terminal status (saved, duplicate,
not-configured, or error/cancelled). -/
theorem c5_one_at_a_time (configured : Bool) (oracles : List QueueOracle)
    (store0 : List StoredRow) :
    ∀ s ∈ runScanner configured oracles store0,
      (∀ j k, j ≠ k →
        ¬(isActive (s.results.getD j .pending) = true ∧
          isActive (s.results.getD k .pending) = true))
      ∧ (∀ j, s.results.getD (j + 1) .pending ≠ .pending →
          isTerminal (s.results.getD j .pending) = true) := by
  intro s hs
  apply frontier_conclusions
  simp only [runScanner, List.mem_cons] at hs
  rcases hs with rfl | hs
  · exact ⟨0, fun j hj => by omega, fun j _ => getD_replicate_self _ _ _⟩
  · apply processQueue_inv configured oracles 0 _ (by simp) (fun j hj => by omega)
      (fun j _ => getD_replicate_self _ _ _) s hs

/-- C5 witness: the mutual-exclusion conclusion at a concrete state of a
concrete one-image run. -/
theorem c5_one_at_a_time_witness :
    ¬(isActive ((⟨[.analyzing], [], true⟩ : ScannerState).results.getD 0 .pending) = true ∧
      isActive ((⟨[.analyzing], [], true⟩ : ScannerState).results.getD 1 .pending) = true) :=
  (c5_one_at_a_time true [⟨.error "boom", .cancel, none⟩] [] ⟨[.analyzing], [], true⟩
    (by decide)).1 0 1 (by decide)

/-- Indices below the one being processed are never written again. -/
theorem processQueue_preserves_lt (configured : Bool) :
    ∀ (oracles : List QueueOracle) (i : Nat) (st : ScannerState)
      (j : Nat) (d : ProcessingStatus), j < i →
      ∀ s ∈ processQueue configured oracles i st, s.results.getD j d = st.results.getD j d := by
  intro oracles
  induction oracles with
  | nil =>
    intro i st j d _hj s hs
    simp only [processQueue, List.mem_singleton] at hs
    subst hs
    rfl
  | cons o rest ih =>
    intro i st j d hj s hs
    have hne : i ≠ j := by omega
    rcases ha : o.analysis with msg | data
    · simp only [processQueue, ha, List.mem_cons] at hs
      rcases hs with rfl | hs
      · exact getD_set_ne _ _ _ _ _ hne
      rcases hs with rfl | hs
      · simp only [List.set_set]; exact getD_set_ne _ _ _ _ _ hne
      · rw [ih (i + 1) _ j d (by omega) s hs]
        simp only [List.set_set]; exact getD_set_ne _ _ _ _ _ hne
    · rcases hact : o.action with edited | _
      · simp only [processQueue, ha, hact, List.mem_cons] at hs
        rcases hs with rfl | hs
        · exact getD_set_ne _ _ _ _ _ hne
        rcases hs with rfl | hs
        · simp only [List.set_set]; exact getD_set_ne _ _ _ _ _ hne
        rcases hs with rfl | hs
        · simp only [List.set_set]; exact getD_set_ne _ _ _ _ _ hne
        · rw [ih (i + 1) _ j d (by omega) s hs]
          simp only [List.set_set]; exact getD_set_ne _ _ _ _ _ hne
      · simp only [processQueue, ha, hact, List.mem_cons] at hs
        rcases hs with rfl | hs
        · exact getD_set_ne _ _ _ _ _ hne
        rcases hs with rfl | hs
        · simp only [List.set_set]; exact getD_set_ne _ _ _ _ _ hne
        · rw [ih (i + 1) _ j d (by omega) s hs]
          simp only [List.set_set]; exact getD_set_ne _ _ _ _ _ hne

/-- C6: when analysis of image `i` throws, the pipeline marks exactly
item `i` as `error` with the thrown message (all other items' entries
are untouched by that update), continues with image `i + 1` (stopping
only after the queue is exhausted), and item `i` keeps the error status
for the rest of the run (it is never retried). -/
theorem c6_error_isolation (configured : Bool) (o : QueueOracle) (rest : List QueueOracle)
    (i : Nat) (st : ScannerState) (msg : String)
    (ha : o.analysis = .error msg) (hi : i < st.results.length) :
    processQueue configured (o :: rest) i st =
      {st with results := st.results.set i .analyzing, isLoading := true} ::
        {st with results := st.results.set i (.error msg), isLoading := true} ::
          processQueue configured rest (i + 1)
            {st with results := st.results.set i (.error msg), isLoading := true}
    ∧ (st.results.set i (.error msg)).getD i .pending = .error msg
    ∧ (∀ j, j ≠ i →
        (st.results.set i (.error msg)).getD j .pending = st.results.getD j .pending)
    ∧ (∀ s ∈ processQueue configured rest (i + 1)
          {st with results := st.results.set i (.error msg), isLoading := true},
        s.results.getD i .pending = .error msg) := by
  refine ⟨?_, ?_, ?_, ?_⟩
  · simp only [processQueue, ha, List.set_set]
  · exact getD_set_self _ _ _ _ hi
  · intro j hj
    exact getD_set_ne _ _ _ _ _ (fun he => hj he.symm)
  · intro s hs
    rw [processQueue_preserves_lt configured rest (i + 1) _ i .pending (by omega) s hs]
    exact getD_set_self _ _ _ _ hi

/-- C6 witness: a one-image queue whose analysis throws. -/
theorem c6_error_isolation_witness :
    (([ProcessingStatus.pending].set 0 (.error "boom")).getD 0 .pending = .error "boom")
    ∧ (⟨[.error "boom"], [], false⟩ : ScannerState).results.getD 0 .pending = .error "boom" := by
  have h := c6_error_isolation true ⟨.error "boom", .cancel, none⟩ [] 0
    ⟨[.pending], [], true⟩ "boom" rfl (by decide)
  exact ⟨h.2.1, h.2.2.2 ⟨[.error "boom"], [], false⟩ (by decide)⟩

/-- C2: saving a record whose hash already exists in the store reports a
duplicate (so `handleConfirmSave` marks the item `duplicate`, not
`saved` or `error`) and leaves the stored rows exactly as they were: no
second row is created. -/
theorem c2_duplicate_no_second_row (store : List StoredRow) (d : ReceiptData)
    (h : store.any (fun row => row.unique_hash == createReceiptHash d) = true) :
    saveReceipt true store d =
      ({isDuplicate := true, error := none, notConfigured := false}, store)
    ∧ statusOfSave (saveReceipt true store d).fst = .duplicate
    ∧ (saveReceipt true store d).snd = store := by
  have h1 : saveReceipt true store d =
      ({isDuplicate := true, error := none, notConfigured := false}, store) := by
    unfold saveReceipt supabaseInsertReceipt
    simp [h]
  refine ⟨h1, ?_, ?_⟩ <;> rw [h1] <;> rfl

/-- Record used by the C2 witness. -/
def dupReceipt : ReceiptData :=
  {merchantName := "Cafe", date := "2025-01-01", total := 10, items := [⟨"Tea", 4⟩]}

/-- A stored row carrying `dupReceipt`'s hash. -/
def dupRow : StoredRow :=
  {merchant_name := "Cafe", date := "2025-01-01", total := 10, items := [⟨"Tea", 4⟩],
    unique_hash := createReceiptHash dupReceipt}

/-- C2 witness: the duplicate outcome on a concrete store. -/
theorem c2_duplicate_no_second_row_witness :
    saveReceipt true [dupRow] dupReceipt =
      ({isDuplicate := true, error := none, notConfigured := false}, [dupRow])
    ∧ statusOfSave (saveReceipt true [dupRow] dupReceipt).fst = .duplicate
    ∧ (saveReceipt true [dupRow] dupReceipt).snd = [dupRow] :=
  c2_duplicate_no_second_row [dupRow] dupReceipt (by decide)

/-! ### Image intake (App `handleImageSelect`) -/

/-- The fields of a browser `File` the intake logic looks at, plus the
underlying bytes (which it ignores). -/
structure JsFile where
  name : String
  size : Nat
  content : String
deriving DecidableEq

/-- The pair the duplicate check compares. -/
def fileKey (f : JsFile) : String × Nat := (f.name, f.size)

/-- `handleImageSelect`: drop incoming files whose name and size match an
already-selected file, append the rest. -/
def handleImageSelect (imageFiles files : List JsFile) : List JsFile :=
  imageFiles ++ files.filter
    (fun file => !(imageFiles.any (fun e => e.name == file.name && e.size == file.size)))

/-- Two distinct files with the same name and size. -/
def dupFileA : JsFile := ⟨"receipt.jpg", 2048, "first image bytes"⟩

def dupFileB : JsFile := ⟨"receipt.jpg", 2048, "second image bytes"⟩

/-- C10, counterexample: a single selection batch containing two distinct
files with the same (name, size) pair passes both through — each incoming
file is compared only against the already-selected list — so the
selected-files list does contain two files with the same (name, size)
pair. -/
theorem c10_intake_counterexample :
    handleImageSelect [] [dupFileA, dupFileB] = [dupFileA, dupFileB]
    ∧ dupFileA ≠ dupFileB
    ∧ fileKey dupFileA = fileKey dupFileB
    ∧ ¬ ((handleImageSelect [] [dupFileA, dupFileB]).map fileKey).Nodup := by
  refine ⟨?_, ?_, ?_, ?_⟩ <;> decide

/-- C10, amended: a newly selected file is added only if no
already-selected file has an identical name and size — files duplicating
an existing (name, size) pair are silently dropped while the rest of the
selection is still added — and the selected list stays free of duplicate
(name, size) pairs provided each selection batch is internally free of
them; a single batch with an internal duplicate can still introduce one. -/
theorem c10_intake_amended :
    (∀ imageFiles files : List JsFile,
      (imageFiles.map fileKey).Nodup → (files.map fileKey).Nodup →
      ((handleImageSelect imageFiles files).map fileKey).Nodup)
    ∧ (∀ (imageFiles files : List JsFile) (x : JsFile),
      x ∈ handleImageSelect imageFiles files ↔
        x ∈ imageFiles ∨ (x ∈ files ∧
          imageFiles.any (fun e => e.name == x.name && e.size == x.size) = false)) := by
  constructor
  · intro imageFiles files h1 h2
    unfold handleImageSelect
    rw [List.map_append, List.nodup_append]
    refine ⟨h1, h2.sublist (List.Sublist.map fileKey (List.filter_sublist files)), ?_⟩
    intro k hk1 hk2
    obtain ⟨e, he, hek⟩ := List.mem_map.mp hk1
    obtain ⟨f, hf, hfk⟩ := List.mem_map.mp hk2
    have hff := List.mem_filter.mp hf
    have hkey : e.name = f.name ∧ e.size = f.size := by
      have : fileKey e = fileKey f := hek.trans hfk.symm
      unfold fileKey at this
      exact ⟨congrArg Prod.fst this, congrArg Prod.snd this⟩
    have hb : imageFiles.any (fun x => x.name == f.name && x.size == f.size) = false := by
      simpa using hff.2
    have ht : imageFiles.any (fun x => x.name == f.name && x.size == f.size) = true :=
      List.any_eq_true.mpr ⟨e, he, by simp [hkey.1, hkey.2]⟩
    rw [ht] at hb
    exact absurd hb (by decide)
  · intro imageFiles files x
    unfold handleImageSelect
    rw [List.mem_append, List.mem_filter]
    simp [Bool.not_eq_true']

/-- C10 witness: applying the amended theorem to a concrete selection. -/
theorem c10_intake_amended_witness :
    ((handleImageSelect [dupFileA] [dupFileB]).map fileKey).Nodup
    ∧ (dupFileB ∈ handleImageSelect [dupFileA] [dupFileB] ↔
        dupFileB ∈ [dupFileA] ∨ (dupFileB ∈ [dupFileB] ∧
          ([dupFileA].any (fun e => e.name == dupFileB.name && e.size == dupFileB.size)) =
            false)) :=
  ⟨c10_intake_amended.1 [dupFileA] [dupFileB] (by decide) (by decide),
    c10_intake_amended.2 [dupFileA] [dupFileB] dupFileB⟩

end ReceiptRecorder
